import Mathlib

/-!
Verification of the esphome-nfc-components water-meter NFC reader.

The development shallowly embeds the C++ source of
`components/pn532/pn532_mifare_ultralight.cpp` (the tag-data reconstruction
engine) and the `on_tag` lambda of `watermeter-nfc-reader.yaml` (the report
decoder) as executable Lean functions over `List Nat` (byte vectors) and
`List Char` (byte strings), and proves or refutes the specified properties.
-/

namespace NfcSpec

/-- nfc::MIFARE_ULTRALIGHT_PAGE_SIZE from nfc_helpers (part_000). -/
def MIFARE_ULTRALIGHT_PAGE_SIZE : Nat := 4

/-- nfc::MIFARE_ULTRALIGHT_READ_SIZE from nfc_helpers (part_000). -/
def MIFARE_ULTRALIGHT_READ_SIZE : Nat := 4

/-- Embedding of `PN532::find_mifare_ultralight_ndef_` from
`components/pn532/pn532_mifare_ultralight.cpp` (lines 238-344).

The input models the `page_3_to_6` vector.  The outer `Option` marks memory
safety: `none` means the function performed an out-of-bounds `operator[]`
access (undefined behavior in C++).  `some none` models `return false`;
`some (some (message_length, message_start_index))` models `return true`
together with the two out-parameters.

The function unconditionally reads indices 4..7 (`p4_offset + 0` .. `+ 3`)
for the "Page 4 data" log line before any size check, which is why the four
leading reads are unguarded.  The "Page 5 data" / "Page 6 data" log reads at
indices 8..11 and 12..15 are guarded in the source by
`size() >= p4_offset + 8` and `size() >= p4_offset + 12` respectively, so
they can never be out of bounds and introduce no failure case; they are
therefore not represented.  `l.length ≤ 9` is the negation of the
`size() > p4_offset + 5` minimum-size guard. -/
def find_mifare_ultralight_ndef (l : List Nat) : Option (Option (Nat × Nat)) :=
  match l[4]?, l[5]?, l[6]?, l[7]? with
  | some b4, some b5, some hi, some lo =>
    if l.length ≤ 9 then some none
    else if b4 = 3 then
      if b5 = 255 then
        if l.length < 8 then some none
        else if hi = 3 then
          if 0 < lo ∧ lo ≤ 100 then some (some (lo, 4))
          else some (some (255, 2))
        else if 254 < hi * 256 + lo ∧ hi * 256 + lo ≤ 924 then
          some (some (hi * 256 + lo, 4))
        else some (some (255, 2))
      else some (some (b5, 2))
    else
      match l[9]? with
      | some b9 =>
        if b9 = 3 then
          if l.length < 11 then some none
          else
            match l[10]? with
            | some b10 => some (some (b10, 7))
            | none => none
        else some none
      | none => none
  | _, _, _, _ => none

/-- Embedding of `PN532::is_mifare_ultralight_formatted_`
(pn532_mifare_ultralight.cpp lines 219-225): the vector must be longer than
`p4_offset + 3 = 7` bytes and the four page-4 bytes must not all be 0xFF.
The `&&` short-circuits in the source, so the four accesses only happen
after the size check; `getD` reads the same bytes in that case. -/
def is_mifare_ultralight_formatted (l : List Nat) : Bool :=
  decide (7 < l.length) &&
    (!(l.getD 4 0 == 255) || !(l.getD 5 0 == 255) ||
     !(l.getD 6 0 == 255) || !(l.getD 7 0 == 255))

/-- The per-iteration buffer append of `PN532::read_mifare_ultralight_bytes_`
(pn532_mifare_ultralight.cpp lines 206-211).  `resp` is the full transport
response including the status byte at index 0; the C++ inserts the range
`[response.begin() + 1, pages_in_end_itr)` when that iterator lies strictly
after `begin()` and at most at `end()`.  `endIdx` is the distance of
`pages_in_end_itr` from `begin()`; the truncated `Nat` subtraction yields 0
exactly when the C++ iterator would fall at or before `begin()`, matching
the guard. -/
def rmuAppend (resp : List Nat) (i numBytes : Nat) (data : List Nat) : List Nat :=
  let bytesOffset := (i + 1) * (MIFARE_ULTRALIGHT_READ_SIZE * MIFARE_ULTRALIGHT_PAGE_SIZE)
  let endIdx := if bytesOffset ≤ numBytes then resp.length
                else resp.length - (bytesOffset - numBytes)
  if 0 < endIdx ∧ endIdx ≤ resp.length then data ++ (resp.take endIdx).drop 1 else data

/-- The read loop of `PN532::read_mifare_ultralight_bytes_` (lines 193-212).
`exch i` models the i-th INDATAEXCHANGE round trip: `none` when
`write_command_` or `read_response` fails, `some resp` the response vector
otherwise; `resp.head? = some 0` is the `response[0] != 0x00` status check
(an empty response fails the check, modeling the out-of-bounds read of
`response[0]` as a failed status).  `fuel` is an upper bound on the
iteration count; callers pass one more than the loop can execute for the
byte counts this driver requests (≤ 300 bytes), so the fuel-exhaustion base
case is never reached (the uint8 wrap of the C++ loop counter, reachable
only for `num_bytes > 4080`, is not modeled). -/
def rmuLoop (exch : Nat → Option (List Nat)) (numBytes : Nat) :
    Nat → Nat → List Nat → Bool × List Nat
  | 0, _, data => (true, data)
  | fuel + 1, i, data =>
    if i * (MIFARE_ULTRALIGHT_READ_SIZE * MIFARE_ULTRALIGHT_PAGE_SIZE) < numBytes then
      match exch i with
      | none => (false, data)
      | some resp =>
        if resp.head? = some 0 then
          rmuLoop exch numBytes fuel (i + 1) (rmuAppend resp i numBytes data)
        else (false, data)
    else (true, data)

/-- Embedding of `PN532::read_mifare_ultralight_bytes_` (lines 189-217):
runs the exchange loop starting at iteration 0 on the in/out vector `data`,
returning the C++ boolean result together with the final state of `data`. -/
def read_mifare_ultralight_bytes (exch : Nat → Option (List Nat)) (numBytes : Nat)
    (data : List Nat) : Bool × List Nat :=
  rmuLoop exch numBytes ((numBytes + 15) / 16 + 1) 0 data

/-- A transport in which the first exchange succeeds (status 0 plus 16 data
bytes) and every later exchange fails. -/
def exchOneGood : Nat → Option (List Nat) :=
  fun i => if i = 0 then some (0 :: List.replicate 16 170) else none

/-- The `read_length` computation of `read_mifare_ultralight_tag_`
(pn532_mifare_ultralight.cpp line 38):
`const uint8_t read_length = message_length + message_start_index > 12 ?
message_length + message_start_index - 12 : 0;`.  The arithmetic happens in
`int`, but the result is stored into a `uint8_t`, hence the reduction
mod 256. -/
def tag_read_length (messageLength messageStartIndex : Nat) : Nat :=
  if 12 < messageLength + messageStartIndex then
    (messageLength + messageStartIndex - 12) % 256
  else 0

/-- The `extra_read_length` computation (line 44):
`std::max(read_length, (uint16_t)200)`. -/
def extra_read_length (messageLength messageStartIndex : Nat) : Nat :=
  max (tag_read_length messageLength messageStartIndex) 200

/-- Modulus of `size_t` arithmetic on the 64-bit host used for the embedding
of unsigned wraparound. -/
def SIZE_T_MOD : Nat := 18446744073709551616

/-- `size_t` subtraction `a - b` with wraparound: `a - b` when it does not
underflow, otherwise `a - b + 2^64` (exact for `a < SIZE_T_MOD`,
`b ≤ SIZE_T_MOD`, which covers every vector size the program can hold). -/
def size_t_sub (a b : Nat) : Nat := if b ≤ a then a - b else a + SIZE_T_MOD - b

/-- The inner-TLV scan loop of `read_mifare_ultralight_tag_`
(pn532_mifare_ultralight.cpp lines 102-169).  State: current index `i`,
`comb` = `combined_inner_data`, `found` = `found_inner_tlv`,
`expected` = `expected_total_size`.  `stop` is the precomputed loop bound
`data.size() - 1` (in `size_t` arithmetic).  All element accesses in the
source are guarded by explicit index checks, so `getD _ 0` reads exactly the
bytes the source reads; `fuel` only bounds the recursion and is passed large
enough (the index strictly increases each iteration) that exhaustion is
unreachable for nonempty `data`.  On finding a valid inner TLV the source
executes `i += inner_length + 1` followed by the loop increment `i++`. -/
def innerScanLoop (data : List Nat) (stop : Nat) :
    Nat → Nat → List Nat → Bool → Nat → List Nat × Bool × Nat
  | 0, _, comb, found, expected => (comb, found, expected)
  | fuel + 1, i, comb, found, expected =>
    if i < stop then
      if data.getD i 0 = 3 ∧ i + 1 < data.length then
        let innerLength := data.getD (i + 1) 0
        if 0 < innerLength ∧ innerLength < 255 ∧ i + 2 + innerLength ≤ data.length then
          let innerData := (data.drop (i + 2)).take innerLength
          let expected2 :=
            if ¬found ∧ 4 ≤ innerData.length ∧ innerData.getD 0 0 &&& 16 ≠ 0 then
              3 + innerData.getD 1 0 + innerData.getD 2 0
            else expected
          let comb2 := if ¬found then innerData else comb ++ innerData
          innerScanLoop data stop fuel (i + innerLength + 2) comb2 true expected2
        else innerScanLoop data stop fuel (i + 1) comb found expected
      else innerScanLoop data stop fuel (i + 1) comb found expected
    else (comb, found, expected)

/-- Lines 171-178: if an inner TLV was found, optionally trim the combined
data to `expected_total_size` and replace `data` with it; otherwise keep
`data`.  The second component reports `found_inner_tlv`. -/
def innerScanPost (data : List Nat) (r : List Nat × Bool × Nat) : List Nat × Bool :=
  if r.2.1 then
    (if 0 < r.2.2 ∧ r.2.2 ≤ r.1.length then r.1.take r.2.2 else r.1, true)
  else (data, false)

/-- The complete inner-TLV rescan applied to the trimmed payload
(lines 102-178). -/
def innerScanResult (data : List Nat) : List Nat × Bool :=
  innerScanPost data
    (innerScanLoop data (size_t_sub data.length 1) (data.length + 2) 0 [] false 0)

/-- Lines 88-91: `if (data.size() > message_length) data.resize(message_length);`. -/
def trimToLength (n : Nat) (l : List Nat) : List Nat :=
  if n < l.length then l.take n else l

/-- Lines 86-186 of `read_mifare_ultralight_tag_`: erase the first
`trimOffset` bytes, resize down to `messageLength` if larger, then run the
inner-TLV rescan; the result is the NDEF data handed to the returned tag. -/
def assembleRest (messageLength trimOffset : Nat) (data : List Nat) : List Nat :=
  (innerScanResult (trimToLength messageLength (data.drop trimOffset))).1

/-- Embedding of the assembly tail of `PN532::read_mifare_ultralight_tag_`
(pn532_mifare_ultralight.cpp lines 55-186), taking the locator outputs and
the buffer as it stands after the additional reads.  `none` models the two
`return make_unique<NfcTag>(uid, type)` aborts that yield a tag without NDEF
data ("Not enough data to trim" and "No message data available after trim
offset"); `some d` models returning a tag whose NDEF data is `d`.  The
middle branch is the soft-truncation path that narrows `message_length` to
`data.size() - trim_offset`. -/
def assemble_tag (messageLength messageStartIndex : Nat) (data : List Nat) :
    Option (List Nat) :=
  let trimOffset := messageStartIndex + MIFARE_ULTRALIGHT_PAGE_SIZE
  if data.length < trimOffset then none
  else if data.length < trimOffset + messageLength then
    if trimOffset < data.length then
      some (assembleRest (data.length - trimOffset) trimOffset data)
    else none
  else some (assembleRest messageLength trimOffset data)

/-- The direct NDEF-record scan of the part_001 variant of
`read_mifare_ultralight_tag_` (src/unnamed/part_001 lines 171-200).  The
result accumulates `ndef_record_starts` and `expected_total_size`.  The
outer `Option` marks memory safety: `none` means the scan performed an
out-of-bounds `data[i]` access (the `size_t` loop bound
`data.size() - 3` underflows for `data.size() < 3`).  `fuel` is passed
large enough that, whether the loop terminates normally or first touches an
out-of-bounds index, the outcome is decided before fuel runs out. -/
def directScanLoop (data : List Nat) (stop : Nat) :
    Nat → Nat → List Nat → Nat → Option (List Nat × Nat)
  | 0, i, starts, expected => if stop ≤ i then some (starts, expected) else none
  | fuel + 1, i, starts, expected =>
    if stop ≤ i then some (starts, expected)
    else
      match data[i]? with
      | none => none
      | some flags =>
        if flags &&& 7 ≤ 6 ∧ flags &&& 16 ≠ 0 ∧ i + 3 < data.length then
          match data[i + 1]?, data[i + 2]? with
          | some typeLength, some payloadLength =>
            if typeLength ≤ 8 ∧ 0 < payloadLength ∧ payloadLength < 200 then
              directScanLoop data stop fuel (i + 1) (starts ++ [i])
                (if expected = 0 then 3 + typeLength + payloadLength else expected)
            else directScanLoop data stop fuel (i + 1) starts expected
          | _, _ => none
        else directScanLoop data stop fuel (i + 1) starts expected

/-- The part_001 direct-record scan over the trimmed payload, with the
`size_t` loop bound `data.size() - 3` computed in wraparound arithmetic as
in the source. -/
def direct_ndef_record_scan (data : List Nat) : Option (List Nat × Nat) :=
  directScanLoop data (size_t_sub data.length 3) (data.length + 2) 0 [] 0

/-! ## Report decoder: the `on_tag` lambda of `watermeter-nfc-reader.yaml`
(lines 105-207), embedded over `List Char` (the payload bytes of the first
NDEF record). -/

/-- ASCII space or tab: the set trimmed by `find_first_not_of(" \t")` /
`find_last_not_of(" \t")`. -/
def isSpaceTab (c : Char) : Bool := c == ' ' || c == '\t'

/-- The two-sided trim applied to keys and values (yaml lines 144-147).
`erase(0, find_first_not_of(" \t"))` drops the leading run (clearing the
whole string when nothing else remains, exactly as the `npos` case does),
then `erase(find_last_not_of(" \t") + 1)` drops the trailing run. -/
def trimBoth (s : List Char) : List Char :=
  ((s.dropWhile isSpaceTab).reverse.dropWhile isSpaceTab).reverse

/-- Whether `pat` is a leading pattern of `s` (character-wise equality). -/
def leadsWith : List Char → List Char → Bool
  | [], _ => true
  | _ :: _, [] => false
  | a :: p, b :: s => a == b && leadsWith p s

/-- Scan helper for `findSub`: first position `≥ i` where `pat` starts. -/
def findSubGo (pat : List Char) : List Char → Nat → Option Nat
  | [], i => if pat.isEmpty then some i else none
  | c :: rest, i =>
    if leadsWith pat (c :: rest) then some i else findSubGo pat rest (i + 1)

/-- `std::string::find`: index of the first occurrence of `pat` in `s`
(`none` models `npos`). -/
def findSub (s pat : List Char) : Option Nat := findSubGo pat s 0

/-- State of the decode loop: the accumulators `gjson`, `ajson`, `hjson`,
`isn`, `vol_value` and the `is_first_line` flag of the lambda. -/
structure DecSt where
  gjson : List Char
  ajson : List Char
  hjson : List Char
  isn : List Char
  volValue : List Char
  firstLine : Bool

/-- `tag.get_tag_type()` for the tags this driver produces
(`nfc::NFC_FORUM_TYPE_2`, part_000 line 49). -/
def nfcTypeName : List Char := "NFC Forum Type 2".toList

/-- yaml line 135: `gjson += "\"" + "Name" + "\": \"" + line + "\","`. -/
def nameChunk (line : List Char) : List Char :=
  "\"Name\": \"".toList ++ line ++ "\",".toList

/-- yaml line 152: `ajson += "\"" + key + "\": \"" + value + "\","`. -/
def fieldChunk (key value : List Char) : List Char :=
  "\"".toList ++ key ++ "\": \"".toList ++ value ++ "\",".toList

/-- yaml lines 157-159: the three `gjson` entries added for an `S/N` line. -/
def snChunks (value : List Char) : List Char :=
  "\"SN\": \"".toList ++ value ++ "\",".toList ++
    "\"NFC_Id\": \"".toList ++ value ++ "\",".toList ++
    "\"NFC_Typ\": \"".toList ++ nfcTypeName ++ "\",".toList

/-- yaml line 162: `gjson += "\"Battery\": \"" + value + "\","`. -/
def batteryChunk (value : List Char) : List Char :=
  "\"Battery\": \"".toList ++ value ++ "\",".toList

/-- yaml line 150:
`hjson += "{\"date\": \"" + key + "\", \"volume\": \"" + value + "\"},"`. -/
def histRow (key value : List Char) : List Char :=
  "\x7b\"date\": \"".toList ++ key ++ "\", \"volume\": \"".toList ++
    value ++ "\"\x7d,".toList

/-- yaml line 117: `hjson` starts as `"\"history\": ["`. -/
def histInit : List Char := "\"history\": [".toList

/-- yaml line 149: a key of length 10 with `-` at positions 4 and 7. -/
def isDateKey (key : List Char) : Bool :=
  key.length == 10 && key.getD 4 ' ' == '-' && key.getD 7 ' ' == '-'

/-- yaml line 151: the fixed recognized field-key set. -/
def isFieldKey (key : List Char) : Bool :=
  key == "Vol".toList || key == "Temp".toList || key == "FVol".toList ||
    key == "RVol".toList || key == "KVol".toList || key == "KDate".toList ||
    key == "Time".toList

/-- The CRLF line separator. -/
def crlf : List Char := "\r\n".toList

/-- The `while ((pos = input.find("\r\n")) != npos)` loop (yaml lines
129-165).  Each iteration removes `pos + 2 ≥ 2` characters from `input`, so
`fuel = input.length + 1` more than covers every iteration and the
fuel-exhaustion base case is unreachable. -/
def decodeLoop : Nat → List Char → DecSt → DecSt
  | 0, _, st => st
  | fuel + 1, input, st =>
    match findSub input crlf with
    | none => st
    | some pos =>
      let line := input.take pos
      let rest := input.drop (pos + 2)
      if st.firstLine then
        decodeLoop fuel rest
          ⟨st.gjson ++ nameChunk line, st.ajson, st.hjson, st.isn, st.volValue, false⟩
      else
        match findSub line [':'] with
        | none => decodeLoop fuel rest st
        | some d =>
          let key := trimBoth (line.take d)
          let value := trimBoth (line.drop (d + 1))
          if isDateKey key then
            decodeLoop fuel rest
              ⟨st.gjson, st.ajson, st.hjson ++ histRow key value, st.isn,
               st.volValue, st.firstLine⟩
          else if isFieldKey key then
            decodeLoop fuel rest
              ⟨st.gjson, st.ajson ++ fieldChunk key value, st.hjson, st.isn,
               if key == "Vol".toList then value else st.volValue, st.firstLine⟩
          else if key == "S/N".toList then
            decodeLoop fuel rest
              ⟨st.gjson ++ snChunks value, st.ajson, st.hjson, value,
               st.volValue, st.firstLine⟩
          else if key == "Battery".toList then
            decodeLoop fuel rest
              ⟨st.gjson ++ batteryChunk value, st.ajson, st.hjson, st.isn,
               st.volValue, st.firstLine⟩
          else decodeLoop fuel rest st

/-- yaml lines 124-125: truncate the payload at the first `"CRC"`. -/
def crcTrim (input : List Char) : List Char :=
  match findSub input "CRC".toList with
  | some p => input.take p
  | none => input

/-- The initial accumulator state (yaml lines 115-122). -/
def initSt : DecSt := ⟨[], [], histInit, [], [], true⟩

/-- The accumulator state after the whole decode loop has run on the
CRC-truncated payload. -/
def decodeState (input : List Char) : DecSt :=
  decodeLoop ((crcTrim input).length + 1) (crcTrim input) initSt

/-- yaml line 167: `if (hjson.back() == ',') hjson.pop_back();`
(`hjson` is never empty: it starts with `histInit` and only grows). -/
def popTrailingComma (h : List Char) : List Char :=
  if h.getLast? = some ',' then h.dropLast else h

/-- yaml line 168: `gjson = "{" + gjson + ajson + hjson + "]}"`. -/
def jsonOf (input : List Char) : List Char :=
  "\x7b".toList ++ (decodeState input).gjson ++ (decodeState input).ajson ++
    popTrailingComma (decodeState input).hjson ++ "]\x7d".toList

/-- yaml lines 172-178: map ASCII `A`-`Z` to `a`-`z` (`c + ('a' - 'A')`),
pass every other character through. -/
def lowerize (c : Char) : Char :=
  if 'A' ≤ c ∧ c ≤ 'Z' then Char.ofNat (c.toNat + 32) else c

/-- Decimal digit / hexadecimal digit classifiers for the `strtof` model. -/
def isDigitC (c : Char) : Bool := '0' ≤ c && c ≤ '9'

def isHexDigitC (c : Char) : Bool :=
  isDigitC c || ('a' ≤ c && c ≤ 'f') || ('A' ≤ c && c ≤ 'F')

/-- The `isspace` set skipped by `strtof`. -/
def isSpaceC (c : Char) : Bool :=
  c == ' ' || c == '\t' || c == '\n' || c == '\x0b' || c == '\x0c' || c == '\r'

def digitVal (c : Char) : Nat := c.toNat - 48

def hexDigitVal (c : Char) : Nat :=
  if isDigitC c then c.toNat - 48
  else if 'a' ≤ c && c ≤ 'f' then c.toNat - 87
  else c.toNat - 55

def natOfDigits (l : List Char) : Nat := l.foldl (fun a c => a * 10 + digitVal c) 0

def natOfHexDigits (l : List Char) : Nat :=
  l.foldl (fun a c => a * 16 + hexDigitVal c) 0

/-- Case-insensitive leading-pattern check (`pat` given in lowercase),
for the `INF`/`INFINITY`/`NAN` forms `strtof` accepts. -/
def leadsWithCI : List Char → List Char → Bool
  | [], _ => true
  | _ :: _, [] => false
  | a :: p, b :: s => lowerize b == a && leadsWithCI p s

/-- A decimal exponent part `e[±]digits`: signed value and characters
consumed (0 when there is no well-formed exponent, in which case `strtof`
leaves it unconsumed). -/
def expPart (e1 e2 : Char) (t : List Char) : Int × Nat :=
  match t with
  | c :: r =>
    if c == e1 || c == e2 then
      match r with
      | '+' :: rr =>
        let d := rr.takeWhile isDigitC
        if d.isEmpty then (0, 0) else ((natOfDigits d : Int), 2 + d.length)
      | '-' :: rr =>
        let d := rr.takeWhile isDigitC
        if d.isEmpty then (0, 0) else (-(natOfDigits d : Int), 2 + d.length)
      | _ =>
        let d := r.takeWhile isDigitC
        if d.isEmpty then (0, 0) else ((natOfDigits d : Int), 1 + d.length)
    else (0, 0)
  | [] => (0, 0)

/-- The discrete outcome of a `strtof` parse: sign, mantissa digit value,
number of fraction digits, whether the form was decimal (fraction scale 10,
exponent base 10) or hexadecimal (scale 16, base 2), the exponent, whether
the form was an infinity/NaN word (no finite value), and the number of
characters consumed (`endptr - nptr`; 0 when no conversion happened). -/
structure FloatTok where
  sgn : Int
  mant : Nat
  fracLen : Nat
  isDec : Bool
  ex : Int
  special : Bool
  consumed : Nat
  deriving DecidableEq

/-- Decimal form: a digit sequence with optional `.` fraction and optional
`e`-exponent; no digit at all means no conversion (`consumed = 0`). -/
def decTok (sgn : Int) (k1 : Nat) (t : List Char) : FloatTok :=
  let d1 := t.takeWhile isDigitC
  let t3 := t.drop d1.length
  let fr : List Char × Nat :=
    match t3 with
    | '.' :: r => (r.takeWhile isDigitC, 1)
    | _ => ([], 0)
  if d1.length + fr.1.length = 0 then ⟨1, 0, 0, true, 0, false, 0⟩
  else
    let consumedM := d1.length + fr.2 + fr.1.length
    let ep := expPart 'e' 'E' (t.drop consumedM)
    ⟨sgn, natOfDigits (d1 ++ fr.1), fr.1.length, true, ep.1, false,
      k1 + consumedM + ep.2⟩

/-- Hexadecimal form after `0x`: hex digits with optional `.` fraction and
optional `p` binary exponent; with no hex digit at all `strtof` consumes
just the leading `0` of the `0x` prefix (value 0). -/
def hexTok (sgn : Int) (k1 : Nat) (t : List Char) : FloatTok :=
  let h1 := t.takeWhile isHexDigitC
  let t3 := t.drop h1.length
  let fr : List Char × Nat :=
    match t3 with
    | '.' :: r => (r.takeWhile isHexDigitC, 1)
    | _ => ([], 0)
  if h1.length + fr.1.length = 0 then ⟨sgn, 0, 0, true, 0, false, k1 + 1⟩
  else
    let consumedM := h1.length + fr.2 + fr.1.length
    let ep := expPart 'p' 'P' (t.drop consumedM)
    ⟨sgn, natOfHexDigits (h1 ++ fr.1), fr.1.length, false, ep.1, false,
      k1 + 2 + consumedM + ep.2⟩

/-- Model of C `strtof`, discrete part: leading whitespace, optional sign,
then either an `INF`/`INFINITY`/`NAN` word (case-insensitive), a `0x`/`0X`
hexadecimal form, or a decimal form.  (The parenthesized `NAN(...)` variant
is not modeled.) -/
def strtofTok (s : List Char) : FloatTok :=
  let k0 := (s.takeWhile isSpaceC).length
  let t1 := s.drop k0
  let sg : Int × Nat :=
    match t1 with
    | '+' :: _ => (1, 1)
    | '-' :: _ => (-1, 1)
    | _ => (1, 0)
  let t2 := t1.drop sg.2
  let k1 := k0 + sg.2
  if leadsWithCI "infinity".toList t2 then ⟨sg.1, 0, 0, true, 0, true, k1 + 8⟩
  else if leadsWithCI "inf".toList t2 then ⟨sg.1, 0, 0, true, 0, true, k1 + 3⟩
  else if leadsWithCI "nan".toList t2 then ⟨sg.1, 0, 0, true, 0, true, k1 + 3⟩
  else
    match t2 with
    | '0' :: 'x' :: r => hexTok sg.1 k1 r
    | '0' :: 'X' :: r => hexTok sg.1 k1 r
    | _ => decTok sg.1 k1 t2

/-- The exact rational value of a parse outcome.  Infinities and NaN have
no rational representative and are mapped to 0 (no claim exercises them);
float rounding of finite values is likewise abstracted to exact rationals. -/
def tokVal (t : FloatTok) : ℚ :=
  if t.special then 0
  else (t.sgn : ℚ) * ((t.mant : ℚ) / ((if t.isDec then 10 else 16 : ℚ)) ^ t.fracLen) *
    ((if t.isDec then 10 else 2 : ℚ)) ^ t.ex

/-- Model of C `strtof` over exact rationals: parsed value and consumed
character count. -/
def strtofR (s : List Char) : ℚ × Nat := (tokVal (strtofTok s), (strtofTok s).consumed)

/-- yaml lines 188-192: the `Vol` value with a `" m³"` unit suffix (and
anything after it) stripped when present. -/
def volNumericCandidate (input : List Char) : List Char :=
  match findSub (decodeState input).volValue " m³".toList with
  | some u => (decodeState input).volValue.take u
  | none => (decodeState input).volValue

/-- yaml line 199: `endptr != vol_numeric.c_str() && *endptr == '\0'` —
some characters were consumed and the character at the stop position is the
NUL terminator (`getD` past the end models `c_str()`'s terminator, and a
NUL inside the string stops `strtof` exactly as it stops the check). -/
def strtofSucceeds (vn : List Char) : Bool :=
  !((strtofR vn).2 == 0) && vn.getD (strtofR vn).2 '\x00' == '\x00'

/-- yaml lines 186-205: the value published to the `water_volume` sensor,
`none` when nothing is published (empty `vol_value` or failed parse). -/
def publishedVolumeOf (input : List Char) : Option ℚ :=
  if (decodeState input).volValue ≠ [] then
    if strtofSucceeds (volNumericCandidate input) then
      some (strtofR (volNumericCandidate input)).1
    else none
  else none

/-- The observable outcome of one `on_tag` run on a payload: the JSON
published to `water_meter_json`, the value published to `water_volume`, and
the lowercased serial (`isn` after the lines-172-178 loop). -/
structure LambdaResult where
  publishedJson : Option (List Char)
  publishedVolume : Option ℚ
  snLower : List Char

/-- The complete `on_tag` lambda on the payload of the first NDEF record
(yaml lines 105-207): nothing is published when the payload is empty
(`if (input != "")`). -/
def decodePayload (input : List Char) : LambdaResult :=
  if input = [] then ⟨none, none, []⟩
  else ⟨some (jsonOf input), publishedVolumeOf input,
    (decodeState input).isn.map lowerize⟩

/-- The round-trip report payload of the specification's §8 example. -/
def examplePayload : List Char :=
  "DeviceX\r\nS/N: 12345ABC\r\nVol: 123.456 m³\r\nBattery: 87%\r\n2024-01-01: 100.000\r\n".toList

/-- The same report with an unparsable `Vol` value. -/
def unparsablePayload : List Char :=
  "DeviceX\r\nS/N: 12345ABC\r\nVol: N/A\r\nBattery: 87%\r\n2024-01-01: 100.000\r\n".toList

/-- The JSON the lambda builds for `examplePayload`. -/
def exampleJson : List Char :=
  "\x7b\"Name\": \"DeviceX\",\"SN\": \"12345ABC\",\"NFC_Id\": \"12345ABC\",\"NFC_Typ\": \"NFC Forum Type 2\",\"Battery\": \"87%\",\"Vol\": \"123.456 m³\",\"history\": [\x7b\"date\": \"2024-01-01\", \"volume\": \"100.000\"\x7d]\x7d".toList

/-- A closing bracket, `]` or the closing brace. -/
def isCloseB (c : Char) : Bool := c == ']' || c == '\x7d'

/-- One step of the comma-before-closing-bracket automaton: first component
is "no comma immediately before a closing bracket so far", second is "the
previous character was a comma". -/
def ncStep (st : Bool × Bool) (c : Char) : Bool × Bool :=
  (st.1 && !(st.2 && isCloseB c), c == ',')

def ncRun (st : Bool × Bool) (l : List Char) : Bool × Bool := l.foldl ncStep st

/-- `true` iff no `,` is immediately followed by `]` or the closing brace. -/
def noCommaClose (l : List Char) : Bool := (ncRun (true, false) l).1

/-- No character of `l` is a closing bracket. -/
def closeFreeB (l : List Char) : Bool := l.all (fun c => !isCloseB c)

/-- The `ncRun` first component is preserved by `l` regardless of the
incoming state (such an `l` can never complete a comma-bracket pair nor
break an already-clean run). -/
def NCGood (l : List Char) : Prop := ∀ st : Bool × Bool, (ncRun st l).1 = st.1

/-- The invariant the decode loop maintains for a close-bracket-free
payload: every accumulator is `NCGood`, and `hjson` is either still the
initial `"history": [` or ends in the two characters `}` `,` with the part
before the final comma `NCGood`. -/
def C8Inv (st : DecSt) : Prop :=
  NCGood st.gjson ∧ NCGood st.ajson ∧ NCGood st.hjson ∧
    (st.hjson = histInit ∨
      ∃ t, st.hjson = t ++ ['\x7d', ','] ∧ NCGood (t ++ ['\x7d']))

/-- A history row up to (excluding) its closing `}` `,`: everything here is
free of closing brackets when the key and value are. -/
def rowPre (key value : List Char) : List Char :=
  "\x7b\"date\": \"".toList ++
    (key ++ ("\", \"volume\": \"".toList ++ (value ++ ['"'])))

theorem find_ndef_ff_0210_extended (l : List Nat)
    (h4 : l[4]? = some 3) (h5 : l[5]? = some 255)
    (h6 : l[6]? = some 2) (h7 : l[7]? = some 16)
    (hlen : 9 < l.length) :
    find_mifare_ultralight_ndef l = some (some (528, 4)) := by
  have hl9 : ¬ (l.length ≤ 9) := by omega
  have hl8 : ¬ (l.length < 8) := by omega
  simp [find_mifare_ultralight_ndef, h4, h5, h6, h7, hl9, hl8]

theorem find_ndef_ff_second_tlv (l : List Nat)
    (h4 : l[4]? = some 3) (h5 : l[5]? = some 255)
    (h6 : l[6]? = some 3) (h7 : l[7]? = some 30)
    (hlen : 9 < l.length) :
    find_mifare_ultralight_ndef l = some (some (30, 4)) := by
  have hl9 : ¬ (l.length ≤ 9) := by omega
  have hl8 : ¬ (l.length < 8) := by omega
  simp [find_mifare_ultralight_ndef, h4, h5, h6, h7, hl9, hl8]

theorem find_ndef_ff_0210_cex :
    find_mifare_ultralight_ndef [0, 0, 0, 0, 3, 255, 2, 16, 0, 0] = some (some (528, 4)) ∧
    find_mifare_ultralight_ndef [0, 0, 0, 0, 3, 255, 2, 16, 0, 0] ≠ some (some (255, 2)) := by
  constructor <;> decide

theorem find_ndef_ff_0210_extended_witness :
    find_mifare_ultralight_ndef [9, 9, 9, 9, 3, 255, 2, 16, 9, 9] = some (some (528, 4)) :=
  find_ndef_ff_0210_extended [9, 9, 9, 9, 3, 255, 2, 16, 9, 9]
    (by decide) (by decide) (by decide) (by decide) (by decide)

theorem find_ndef_ff_second_tlv_witness :
    find_mifare_ultralight_ndef [0, 0, 0, 0, 3, 255, 3, 30, 0, 0] = some (some (30, 4)) :=
  find_ndef_ff_second_tlv [0, 0, 0, 0, 3, 255, 3, 30, 0, 0]
    (by decide) (by decide) (by decide) (by decide) (by decide)

theorem find_ndef_accesses_in_bounds :
    (∀ l : List Nat, is_mifare_ultralight_formatted l = true → 8 ≤ l.length) ∧
    (∀ l : List Nat, 8 ≤ l.length → (find_mifare_ultralight_ndef l).isSome = true) := by
  constructor
  · intro l h
    simp only [is_mifare_ultralight_formatted, Bool.and_eq_true, decide_eq_true_eq] at h
    omega
  · intro l hlen
    obtain ⟨b4, h4⟩ : ∃ b, l[4]? = some b := ⟨_, List.getElem?_eq_getElem (by omega)⟩
    obtain ⟨b5, h5⟩ : ∃ b, l[5]? = some b := ⟨_, List.getElem?_eq_getElem (by omega)⟩
    obtain ⟨b6, h6⟩ : ∃ b, l[6]? = some b := ⟨_, List.getElem?_eq_getElem (by omega)⟩
    obtain ⟨b7, h7⟩ : ∃ b, l[7]? = some b := ⟨_, List.getElem?_eq_getElem (by omega)⟩
    unfold find_mifare_ultralight_ndef
    rw [h4, h5, h6, h7]
    by_cases h9 : l.length ≤ 9
    · simp [h9]
    · obtain ⟨b9, hb9⟩ : ∃ b, l[9]? = some b := ⟨_, List.getElem?_eq_getElem (by omega)⟩
      by_cases h11 : l.length < 11
      · simp only [h9, if_false, hb9]
        split_ifs <;> simp
      · obtain ⟨b10, hb10⟩ : ∃ b, l[10]? = some b := ⟨_, List.getElem?_eq_getElem (by omega)⟩
        simp only [h9, if_false, hb9, hb10]
        split_ifs <;> simp

theorem find_ndef_accesses_in_bounds_witness :
    (find_mifare_ultralight_ndef [0, 0, 0, 0, 1, 2, 3, 4]).isSome = true :=
  find_ndef_accesses_in_bounds.2 [0, 0, 0, 0, 1, 2, 3, 4] (by decide)

theorem rmuAppend_grows (resp : List Nat) (i numBytes : Nat) (data : List Nat) :
    data <+: rmuAppend resp i numBytes data := by
  simp only [rmuAppend]
  split_ifs <;> first
    | exact ⟨_, rfl⟩
    | exact ⟨[], by simp⟩

theorem rmuLoop_grows (exch : Nat → Option (List Nat)) (numBytes : Nat) :
    ∀ (fuel i : Nat) (data : List Nat), data <+: (rmuLoop exch numBytes fuel i data).2 := by
  intro fuel
  induction fuel with
  | zero => intro i data; exact ⟨[], by simp [rmuLoop]⟩
  | succ f ih =>
    intro i data
    simp only [rmuLoop]
    by_cases hc : i * (MIFARE_ULTRALIGHT_READ_SIZE * MIFARE_ULTRALIGHT_PAGE_SIZE) < numBytes
    · rw [if_pos hc]
      cases hx : exch i with
      | none => exact ⟨[], by simp⟩
      | some resp =>
        dsimp only
        by_cases hh : resp.head? = some 0
        · rw [if_pos hh]
          exact (rmuAppend_grows resp i numBytes data).trans (ih (i + 1) _)
        · rw [if_neg hh]
    · rw [if_neg hc]

theorem read_bytes_growth_monotone (exch : Nat → Option (List Nat)) (numBytes : Nat)
    (data : List Nat) : data <+: (read_mifare_ultralight_bytes exch numBytes data).2 :=
  rmuLoop_grows exch numBytes ((numBytes + 15) / 16 + 1) 0 data

theorem read_bytes_partial_mutation_cex :
    (read_mifare_ultralight_bytes exchOneGood 32 []).1 = false ∧
    (read_mifare_ultralight_bytes exchOneGood 32 []).2 ≠ [] := by
  constructor <;> decide

theorem extra_read_length_floor (messageLength messageStartIndex : Nat)
    (h : messageLength + messageStartIndex ≤ 267) :
    extra_read_length messageLength messageStartIndex =
      max (if 12 < messageLength + messageStartIndex then
             messageLength + messageStartIndex - 12 else 0) 200 ∧
    (12 < messageLength + messageStartIndex →
      messageLength + messageStartIndex - 12 ≤
        extra_read_length messageLength messageStartIndex) := by
  unfold extra_read_length tag_read_length
  constructor
  · split_ifs with h12
    · rw [Nat.mod_eq_of_lt (by omega)]
    · rfl
  · intro h12
    rw [if_pos h12, Nat.mod_eq_of_lt (by omega)]
    exact le_max_left _ _

theorem extra_read_length_floor_witness :
    extra_read_length 30 4 = max (if 12 < 30 + 4 then 30 + 4 - 12 else 0) 200 ∧
    (12 < 30 + 4 → 30 + 4 - 12 ≤ extra_read_length 30 4) :=
  extra_read_length_floor 30 4 (by decide)

theorem extra_read_length_truncation_cex :
    find_mifare_ultralight_ndef [1, 1, 1, 1, 3, 255, 2, 16, 1, 1] = some (some (528, 4)) ∧
    extra_read_length 528 4 = 200 ∧ extra_read_length 528 4 < 528 + 4 - 12 :=
  ⟨by decide, by decide, by decide⟩

theorem innerScanPost_of_not_found (data : List Nat) (r : List Nat × Bool × Nat)
    (h : (innerScanPost data r).2 = false) : innerScanPost data r = (data, false) := by
  unfold innerScanPost at h ⊢
  by_cases hf : r.2.1
  · rw [if_pos hf] at h; simp at h
  · rw [if_neg hf]

theorem assemble_truncation_narrows (messageLength messageStartIndex : Nat)
    (data : List Nat) :
    (messageStartIndex + 4 < data.length →
      data.length < messageStartIndex + 4 + messageLength →
      (innerScanResult (data.drop (messageStartIndex + 4))).2 = false →
      assemble_tag messageLength messageStartIndex data =
        some (data.drop (messageStartIndex + 4)) ∧
      (data.drop (messageStartIndex + 4)).length =
        data.length - (messageStartIndex + 4)) ∧
    (assemble_tag messageLength messageStartIndex data = none →
      data.length ≤ messageStartIndex + 4) := by
  constructor
  · intro h1 h2 h3
    have hd1 : (data.drop (messageStartIndex + 4)).length =
        data.length - (messageStartIndex + 4) := by simp
    refine ⟨?_, hd1⟩
    have e1 : assemble_tag messageLength messageStartIndex data =
        some (assembleRest (data.length - (messageStartIndex + 4))
          (messageStartIndex + 4) data) := by
      simp only [assemble_tag, MIFARE_ULTRALIGHT_PAGE_SIZE]
      rw [if_neg (by omega), if_pos (by omega), if_pos (by omega)]
    have htl : trimToLength (data.length - (messageStartIndex + 4))
        (data.drop (messageStartIndex + 4)) = data.drop (messageStartIndex + 4) := by
      rw [trimToLength, if_neg (by rw [hd1]; exact lt_irrefl _)]
    have e2 : assembleRest (data.length - (messageStartIndex + 4))
        (messageStartIndex + 4) data =
        (innerScanResult (data.drop (messageStartIndex + 4))).1 := by
      rw [assembleRest, htl]
    have hpost := innerScanPost_of_not_found (data.drop (messageStartIndex + 4))
      (innerScanLoop (data.drop (messageStartIndex + 4))
        (size_t_sub (data.drop (messageStartIndex + 4)).length 1)
        ((data.drop (messageStartIndex + 4)).length + 2) 0 [] false 0) h3
    have e3 : (innerScanResult (data.drop (messageStartIndex + 4))).1 =
        data.drop (messageStartIndex + 4) := by
      rw [innerScanResult, hpost]
    rw [e1, e2, e3]
  · intro hnone
    by_contra hgt
    push_neg at hgt
    by_cases hB : data.length < messageStartIndex + 4 + messageLength
    · have e : assemble_tag messageLength messageStartIndex data =
          some (assembleRest (data.length - (messageStartIndex + 4))
            (messageStartIndex + 4) data) := by
        simp only [assemble_tag, MIFARE_ULTRALIGHT_PAGE_SIZE]
        rw [if_neg (by omega), if_pos (by omega), if_pos (by omega)]
      rw [e] at hnone
      exact Option.noConfusion hnone
    · have e : assemble_tag messageLength messageStartIndex data =
          some (assembleRest messageLength (messageStartIndex + 4) data) := by
        simp only [assemble_tag, MIFARE_ULTRALIGHT_PAGE_SIZE]
        rw [if_neg (by omega), if_neg (by omega)]
      rw [e] at hnone
      exact Option.noConfusion hnone

theorem assemble_truncation_narrows_witness :
    assemble_tag 10 2 [0, 0, 0, 0, 0, 0, 5, 5, 5] =
      some (([0, 0, 0, 0, 0, 0, 5, 5, 5] : List Nat).drop (2 + 4)) ∧
    (([0, 0, 0, 0, 0, 0, 5, 5, 5] : List Nat).drop (2 + 4)).length =
      ([0, 0, 0, 0, 0, 0, 5, 5, 5] : List Nat).length - (2 + 4) :=
  (assemble_truncation_narrows 10 2 [0, 0, 0, 0, 0, 0, 5, 5, 5]).1
    (by decide) (by decide) (by decide)

theorem assemble_truncation_inner_tlv_cex :
    (2 + 4 < ([0, 0, 0, 0, 0, 0, 3, 1, 170] : List Nat).length ∧
      ([0, 0, 0, 0, 0, 0, 3, 1, 170] : List Nat).length < 2 + 4 + 10) ∧
    assemble_tag 10 2 [0, 0, 0, 0, 0, 0, 3, 1, 170] = some [170] ∧
    Option.map List.length (assemble_tag 10 2 [0, 0, 0, 0, 0, 0, 3, 1, 170]) ≠
      some (([0, 0, 0, 0, 0, 0, 3, 1, 170] : List Nat).length - (2 + 4)) := by
  refine ⟨by decide, by decide, by decide⟩

theorem directScanLoop_reaches (data : List Nat) (stop : Nat)
    (hstop : stop + 3 ≤ data.length) :
    ∀ (fuel i : Nat) (starts : List Nat) (expected : Nat), stop ≤ i + fuel →
      (directScanLoop data stop fuel i starts expected).isSome = true := by
  intro fuel
  induction fuel with
  | zero =>
    intro i s e hle
    simp only [directScanLoop]
    rw [if_pos (by omega)]
    rfl
  | succ f ih =>
    intro i s e hle
    simp only [directScanLoop]
    by_cases hi : stop ≤ i
    · rw [if_pos hi]; rfl
    · rw [if_neg hi]
      have hilt : i < data.length := by omega
      obtain ⟨flags, hf⟩ : ∃ b, data[i]? = some b := ⟨_, List.getElem?_eq_getElem hilt⟩
      simp only [hf]
      by_cases hcond : flags &&& 7 ≤ 6 ∧ flags &&& 16 ≠ 0 ∧ i + 3 < data.length
      · rw [if_pos hcond]
        obtain ⟨tl, h1⟩ : ∃ b, data[i + 1]? = some b :=
          ⟨_, List.getElem?_eq_getElem (by omega)⟩
        obtain ⟨pl, h2⟩ : ∃ b, data[i + 2]? = some b :=
          ⟨_, List.getElem?_eq_getElem (by omega)⟩
        simp only [h1, h2]
        by_cases hc2 : tl ≤ 8 ∧ 0 < pl ∧ pl < 200
        · rw [if_pos hc2]; exact ih (i + 1) _ _ (by omega)
        · rw [if_neg hc2]; exact ih (i + 1) _ _ (by omega)
      · rw [if_neg hcond]; exact ih (i + 1) _ _ (by omega)

theorem direct_scan_in_bounds :
    (∀ data : List Nat, 3 ≤ data.length →
      (direct_ndef_record_scan data).isSome = true) ∧
    direct_ndef_record_scan [0, 0] = none := by
  constructor
  · intro data h3
    have hstop : size_t_sub data.length 3 = data.length - 3 := by
      rw [size_t_sub, if_pos h3]
    unfold direct_ndef_record_scan
    rw [hstop]
    exact directScanLoop_reaches data (data.length - 3) (by omega)
      (data.length + 2) 0 [] 0 (by omega)
  · decide

theorem direct_scan_in_bounds_witness :
    (direct_ndef_record_scan [0, 0, 0]).isSome = true :=
  direct_scan_in_bounds.1 [0, 0, 0] (by decide)

set_option maxRecDepth 10000 in
theorem decode_example_reading :
    (decodePayload examplePayload).publishedJson = some exampleJson ∧
    (decodePayload examplePayload).snLower = "12345abc".toList ∧
    (decodePayload examplePayload).publishedVolume = some (123456 / 1000 : ℚ) := by
  refine ⟨by decide, by decide, ?_⟩
  have ht : strtofTok (volNumericCandidate examplePayload) =
      ⟨1, 123456, 3, true, 0, false, 7⟩ := by decide
  have h1 : (decodePayload examplePayload).publishedVolume =
      publishedVolumeOf examplePayload := rfl
  have h2 : publishedVolumeOf examplePayload =
      some (strtofR (volNumericCandidate examplePayload)).1 := by
    unfold publishedVolumeOf
    rw [if_pos (by decide), if_pos (by decide)]
  have h3 : (strtofR (volNumericCandidate examplePayload)).1 =
      tokVal ⟨1, 123456, 3, true, 0, false, 7⟩ := by
    show tokVal (strtofTok (volNumericCandidate examplePayload)) = _
    rw [ht]
  have h4 : tokVal ⟨1, 123456, 3, true, 0, false, 7⟩ = (123456 / 1000 : ℚ) := by
    unfold tokVal
    norm_num
  rw [h1, h2, h3, h4]

theorem decode_unparsable_vol_soft (input : List Char) (hne : input ≠ [])
    (hfail : strtofSucceeds (volNumericCandidate input) = false) :
    (decodePayload input).publishedVolume = none ∧
    (decodePayload input).publishedJson = some (jsonOf input) := by
  constructor
  · have h1 : (decodePayload input).publishedVolume = publishedVolumeOf input := by
      unfold decodePayload
      rw [if_neg hne]
    rw [h1]
    unfold publishedVolumeOf
    by_cases hv : (decodeState input).volValue ≠ []
    · rw [if_pos hv, if_neg ?_]
      intro hc
      rw [hfail] at hc
      exact Bool.noConfusion hc
    · rw [if_neg hv]
  · unfold decodePayload
    rw [if_neg hne]

set_option maxRecDepth 10000 in
theorem decode_unparsable_vol_soft_witness :
    (decodePayload unparsablePayload).publishedVolume = none ∧
    (decodePayload unparsablePayload).publishedJson = some (jsonOf unparsablePayload) :=
  decode_unparsable_vol_soft unparsablePayload (by decide) (by decide)

theorem ncRun_append (st : Bool × Bool) (x y : List Char) :
    ncRun st (x ++ y) = ncRun (ncRun st x) y :=
  List.foldl_append ncStep st x y

theorem ncRun_fst_closeFree :
    ∀ (l : List Char), closeFreeB l = true → ∀ st : Bool × Bool, (ncRun st l).1 = st.1 := by
  intro l
  induction l with
  | nil => intro _ st; rfl
  | cons a t ih =>
    intro h st
    simp only [closeFreeB, List.all_cons, Bool.and_eq_true] at h
    have ha : isCloseB a = false := by simpa using h.1
    show (ncRun (ncStep st a) t).1 = st.1
    rw [ih h.2 (ncStep st a)]
    simp [ncStep, ha]

theorem ncRun_snd :
    ∀ (l : List Char) (st : Bool × Bool),
      (ncRun st l).2 = (match l.getLast? with | none => st.2 | some c => c == ',') := by
  intro l
  induction l with
  | nil => intro st; rfl
  | cons a t ih =>
    intro st
    show (ncRun (ncStep st a) t).2 = _
    rw [ih (ncStep st a)]
    cases t with
    | nil => simp [List.getLast?_singleton, ncStep]
    | cons b r =>
      rw [List.getLast?_cons_cons]
      cases hgl : (b :: r).getLast? with
      | none => simp at hgl
      | some c => rfl

theorem ncgood_append {x y : List Char} (hx : NCGood x) (hy : NCGood y) :
    NCGood (x ++ y) := by
  intro st
  rw [ncRun_append, hy (ncRun st x), hx st]

theorem ncgood_of_closeFree {l : List Char} (h : closeFreeB l = true) : NCGood l :=
  fun st => ncRun_fst_closeFree l h st

theorem ncgood_concat_brace {x : List Char} (hx : NCGood x)
    (hlast : x.getLast? = some '"') : NCGood (x ++ ['\x7d']) := by
  intro st
  rw [ncRun_append]
  have h2 : (ncRun st x).2 = false := by
    rw [ncRun_snd, hlast]
    rfl
  show (ncStep (ncRun st x) '\x7d').1 = st.1
  rw [ncStep]
  rw [h2, hx st]
  simp

theorem closeFree_append {x y : List Char} (hx : closeFreeB x = true)
    (hy : closeFreeB y = true) : closeFreeB (x ++ y) = true := by
  simp only [closeFreeB, List.all_append, Bool.and_eq_true]
  exact ⟨hx, hy⟩

theorem closeFree_sub {l m : List Char} (h : closeFreeB l = true) (hsub : m ⊆ l) :
    closeFreeB m = true := by
  rw [closeFreeB, List.all_eq_true] at h ⊢
  exact fun x hx => h x (hsub hx)

theorem closeFree_take {l : List Char} (h : closeFreeB l = true) (n : Nat) :
    closeFreeB (l.take n) = true := closeFree_sub h (List.take_subset n l)

theorem closeFree_drop {l : List Char} (h : closeFreeB l = true) (n : Nat) :
    closeFreeB (l.drop n) = true := closeFree_sub h (List.drop_subset n l)

theorem closeFree_reverse {l : List Char} (h : closeFreeB l = true) :
    closeFreeB l.reverse = true :=
  closeFree_sub h (fun _ hx => (List.mem_reverse).1 hx)

theorem closeFree_dropWhile {l : List Char} (h : closeFreeB l = true) (p : Char → Bool) :
    closeFreeB (l.dropWhile p) = true :=
  closeFree_sub h (List.dropWhile_sublist p).subset

theorem closeFree_trim {l : List Char} (h : closeFreeB l = true) :
    closeFreeB (trimBoth l) = true := by
  unfold trimBoth
  exact closeFree_reverse (closeFree_dropWhile (closeFree_reverse (closeFree_dropWhile h _)) _)

theorem closeFree_nameChunk {line : List Char} (h : closeFreeB line = true) :
    closeFreeB (nameChunk line) = true :=
  closeFree_append (closeFree_append (by decide) h) (by decide)

theorem closeFree_fieldChunk {k v : List Char} (hk : closeFreeB k = true)
    (hv : closeFreeB v = true) : closeFreeB (fieldChunk k v) = true :=
  closeFree_append (closeFree_append (closeFree_append (closeFree_append (by decide) hk)
    (by decide)) hv) (by decide)

theorem closeFree_snChunks {v : List Char} (hv : closeFreeB v = true) :
    closeFreeB (snChunks v) = true := by
  unfold snChunks
  refine closeFree_append (closeFree_append (closeFree_append (closeFree_append
    (closeFree_append (closeFree_append (closeFree_append (closeFree_append
      (by decide) hv) (by decide)) (by decide)) hv) (by decide)) (by decide))
      (by decide)) (by decide)

theorem closeFree_batteryChunk {v : List Char} (hv : closeFreeB v = true) :
    closeFreeB (batteryChunk v) = true :=
  closeFree_append (closeFree_append (by decide) hv) (by decide)

theorem closeFree_rowPre {k v : List Char} (hk : closeFreeB k = true)
    (hv : closeFreeB v = true) : closeFreeB (rowPre k v) = true :=
  closeFree_append (by decide) (closeFree_append hk (closeFree_append (by decide)
    (closeFree_append hv (by decide))))

theorem rowPre_last (k v : List Char) : (rowPre k v).getLast? = some '"' := by
  unfold rowPre
  rw [List.getLast?_append_of_ne_nil, List.getLast?_append_of_ne_nil,
    List.getLast?_append_of_ne_nil, List.getLast?_concat]
  · simp
  · simp
  · intro hc
    rw [List.append_eq_nil] at hc
    exact absurd hc.2 (by simp)

theorem histRow_shape (k v : List Char) :
    histRow k v = (rowPre k v ++ ['\x7d']) ++ [','] := by
  show "\x7b\"date\": \"".toList ++ k ++ "\", \"volume\": \"".toList ++ v ++
      "\"\x7d,".toList = _
  rw [show ("\"\x7d,".toList : List Char) = ['"'] ++ ['\x7d'] ++ [','] from rfl]
  unfold rowPre
  simp [List.append_assoc]

theorem ncgood_histRow {k v : List Char} (hk : closeFreeB k = true)
    (hv : closeFreeB v = true) : NCGood (histRow k v) := by
  rw [histRow_shape]
  exact ncgood_append (ncgood_concat_brace (ncgood_of_closeFree (closeFree_rowPre hk hv))
    (rowPre_last k v)) (ncgood_of_closeFree (by decide))

theorem c8inv_init : C8Inv initSt :=
  ⟨fun _ => rfl, fun _ => rfl, ncgood_of_closeFree (by decide), Or.inl rfl⟩

theorem closeFree_crcTrim {input : List Char} (h : closeFreeB input = true) :
    closeFreeB (crcTrim input) = true := by
  unfold crcTrim
  cases hf : findSub input "CRC".toList with
  | none => exact h
  | some p => exact closeFree_take h p

theorem decodeLoop_C8 :
    ∀ (fuel : Nat) (input : List Char) (st : DecSt),
      closeFreeB input = true → C8Inv st → C8Inv (decodeLoop fuel input st) := by
  intro fuel
  induction fuel with
  | zero => intro input st _ hst; exact hst
  | succ f ih =>
    intro input st hin hst
    obtain ⟨hg, ha, hh, hshape⟩ := hst
    simp only [decodeLoop]
    cases hfind : findSub input crlf with
    | none => exact ⟨hg, ha, hh, hshape⟩
    | some pos =>
      dsimp only
      have hline : closeFreeB (input.take pos) = true := closeFree_take hin pos
      have hrest : closeFreeB (input.drop (pos + 2)) = true := closeFree_drop hin _
      by_cases hfl : st.firstLine = true
      · rw [if_pos hfl]
        exact ih _ _ hrest
          ⟨ncgood_append hg (ncgood_of_closeFree (closeFree_nameChunk hline)),
            ha, hh, hshape⟩
      · rw [if_neg hfl]
        cases hd : findSub (input.take pos) [':'] with
        | none => exact ih _ _ hrest ⟨hg, ha, hh, hshape⟩
        | some d =>
          dsimp only
          have hkey : closeFreeB (trimBoth ((input.take pos).take d)) = true :=
            closeFree_trim (closeFree_take hline d)
          have hval : closeFreeB (trimBoth ((input.take pos).drop (d + 1))) = true :=
            closeFree_trim (closeFree_drop hline (d + 1))
          by_cases h1 : isDateKey (trimBoth ((input.take pos).take d)) = true
          · rw [if_pos h1]
            refine ih _ _ hrest ⟨hg, ha,
              ncgood_append hh (ncgood_histRow hkey hval), Or.inr
                ⟨st.hjson ++ rowPre (trimBoth ((input.take pos).take d))
                  (trimBoth ((input.take pos).drop (d + 1))), ?_, ?_⟩⟩
            · rw [histRow_shape]
              simp [List.append_assoc]
            · rw [List.append_assoc]
              exact ncgood_append hh (ncgood_concat_brace
                (ncgood_of_closeFree (closeFree_rowPre hkey hval)) (rowPre_last _ _))
          · rw [if_neg h1]
            by_cases h2 : isFieldKey (trimBoth ((input.take pos).take d)) = true
            · rw [if_pos h2]
              exact ih _ _ hrest ⟨hg,
                ncgood_append ha (ncgood_of_closeFree (closeFree_fieldChunk hkey hval)),
                hh, hshape⟩
            · rw [if_neg h2]
              by_cases h3 : (trimBoth ((input.take pos).take d) == "S/N".toList) = true
              · rw [if_pos h3]
                exact ih _ _ hrest
                  ⟨ncgood_append hg (ncgood_of_closeFree (closeFree_snChunks hval)),
                    ha, hh, hshape⟩
              · rw [if_neg h3]
                by_cases h4 :
                    (trimBoth ((input.take pos).take d) == "Battery".toList) = true
                · rw [if_pos h4]
                  exact ih _ _ hrest
                    ⟨ncgood_append hg
                        (ncgood_of_closeFree (closeFree_batteryChunk hval)),
                      ha, hh, hshape⟩
                · rw [if_neg h4]
                  exact ih _ _ hrest ⟨hg, ha, hh, hshape⟩

theorem noCommaClose_assembly (g a h2 : List Char) (hg : NCGood g) (ha : NCGood a)
    (hsnd : ∀ st : Bool × Bool, (ncRun st h2).2 = false) (hh : NCGood h2) :
    noCommaClose ("\x7b".toList ++ g ++ a ++ h2 ++ "]\x7d".toList) = true := by
  unfold noCommaClose
  rw [ncRun_append, ncRun_append, ncRun_append, ncRun_append]
  have hz : ∀ st : Bool × Bool, st.1 = true → st.2 = false →
      (ncRun st ("]\x7d".toList)).1 = true := by decide
  apply hz
  · rw [hh, ha, hg]
    rfl
  · exact hsnd _

theorem decode_json_no_comma_before_close (input : List Char)
    (hcf : closeFreeB input = true) :
    ∀ j, (decodePayload input).publishedJson = some j → noCommaClose j = true := by
  intro j hj
  by_cases hne : input = []
  · rw [hne] at hj
    simp [decodePayload] at hj
  · have hj2 : j = jsonOf input := by
      unfold decodePayload at hj
      rw [if_neg hne] at hj
      exact (Option.some.inj hj).symm
    subst hj2
    have hinv : C8Inv (decodeState input) :=
      decodeLoop_C8 ((crcTrim input).length + 1) (crcTrim input) initSt
        (closeFree_crcTrim hcf) c8inv_init
    obtain ⟨hg, ha, hh, hshape⟩ := hinv
    rw [jsonOf]
    rcases hshape with heq | ⟨t, ht, htg⟩
    · rw [heq]
      have hpop : popTrailingComma histInit = histInit := by decide
      rw [hpop]
      exact noCommaClose_assembly _ _ _ hg ha (by decide)
        (ncgood_of_closeFree (by decide))
    · rw [ht]
      have hpop : popTrailingComma (t ++ ['\x7d', ',']) = t ++ ['\x7d'] := by
        unfold popTrailingComma
        rw [show t ++ ['\x7d', ','] = (t ++ ['\x7d']) ++ [','] by simp,
          List.getLast?_concat, if_pos rfl, List.dropLast_concat]
      rw [hpop]
      refine noCommaClose_assembly _ _ _ hg ha ?_ htg
      intro st
      rw [ncRun_snd, List.getLast?_concat]
      rfl

theorem decode_json_no_comma_before_close_witness :
    noCommaClose ("\x7b\"Name\": \"a\",\"history\": []\x7d".toList) = true :=
  decode_json_no_comma_before_close ("a\r\n".toList) (by decide)
    ("\x7b\"Name\": \"a\",\"history\": []\x7d".toList) (by decide)

theorem decode_json_comma_injection_cex :
    Option.map noCommaClose (decodePayload ("a,\x7d\r\n".toList)).publishedJson =
      some false := by decide

end NfcSpec


